import Mathlib

/-!
Shallow embedding of hawkw/lazy (src/lib.rs): a single-threaded lazy cell
`UnsyncLazy<T, F>` holding an `UnsafeCell<LazyInner<T, F>>`.

Modelling conventions:
* `LazyInner` is translated constructor-for-constructor from the Rust enum.
* The producer `F : FnOnce() -> T` is modelled by a value of an arbitrary
  type `F` together with an application function `app : F → T` standing for
  the single invocation `f()`.  Every operation reports how many times it
  invoked the producer as an explicit `Nat`, so that invocation counts are
  part of the observable result.
* The single-threaded interior mutability of `UnsafeCell` is modelled by
  explicit state passing: each operation takes the current `LazyInner` state
  and returns the state left in the cell afterwards.
* The `unreachable!` panic in `LazyInner::force` is modelled by `none` /
  dedicated `panicked` results.
* The unbounded `loop` in `Deref::deref` / `DerefMut::deref_mut` is modelled
  with an explicit fuel parameter; fuel exhaustion is a distinguished result
  (`fuelOut`), and the development proves that fuel `2` already suffices from
  every externally observable state.
-/

namespace UnsyncLazySpec

/-- The Rust enum `LazyInner<T, F>` with its three variants
`Init(T)`, `Uninit(F)` and `Empty`, in source order. -/
inductive LazyInner (T F : Type) : Type where
  | Init (t : T)
  | Uninit (f : F)
  | Empty
  deriving DecidableEq

/-- The intermediate and final states of one execution of `LazyInner::force`:
`during` is the state held in the cell between `mem::replace(self, Empty)` and
the write-back (i.e. while the match arm — in particular the producer call
`f()` — runs); `result` is the state written back, `none` standing for the
`unreachable!` panic (in which case no write-back happens and the cell keeps
`during`); `calls` is the number of producer invocations performed. -/
structure ForceExec (T F : Type) : Type where
  during : LazyInner T F
  result : Option (LazyInner T F)
  calls : Nat
  deriving DecidableEq

/-- `LazyInner::force`, decomposed step-for-step:
`*self = match mem::replace(self, LazyInner::Empty) { Uninit(f) => Init(f()),
Empty => unreachable!(), x => x }`.  `mem::replace` installs `Empty`
unconditionally, so `during` is `Empty` for every input state. -/
def LazyInner.forceExec (app : F → T) : LazyInner T F → ForceExec T F
  | .Uninit f => ⟨.Empty, some (.Init (app f)), 1⟩
  | .Empty => ⟨.Empty, none, 0⟩
  | .Init t => ⟨.Empty, some (.Init t), 0⟩

/-- Net effect of `LazyInner::force` on the cell state: the state written
back paired with the number of producer invocations, or `none` if the
`Empty => unreachable!()` arm panics.  The arms mirror the source match:
`Uninit(f) => Init(f())`, `Empty => unreachable!()`, `x => x`. -/
def LazyInner.force (app : F → T) : LazyInner T F → Option (LazyInner T F × Nat)
  | .Uninit f => some (.Init (app f), 1)
  | .Empty => none
  | x => some (x, 0)

/-- Result of running the `loop` of `<UnsyncLazy as Deref>::deref` (or
`DerefMut::deref_mut`): `ok t s calls` returns the dereferenced value `t`
(the payload the returned reference points at), the cell state `s` left
behind, and the number of producer invocations; `panicked` models the
`unreachable!` panic inside `force`; `fuelOut` means the given fuel bound on
loop iterations was exhausted. -/
inductive DerefResult (T F : Type) : Type where
  | ok (t : T) (s : LazyInner T F) (calls : Nat)
  | panicked
  | fuelOut
  deriving DecidableEq

/-- Whether a `DerefResult` actually returned a reference. -/
def DerefResult.isOk : DerefResult T F → Bool
  | .ok _ _ _ => true
  | _ => false

/-- The `loop` of `<UnsyncLazy as Deref>::deref`, one fuel unit per
iteration: if the state is `Init(t)` return a reference to `t`; otherwise
call `force` and loop again. -/
def derefLoop (app : F → T) : Nat → LazyInner T F → DerefResult T F
  | 0, _ => .fuelOut
  | _ + 1, .Init t => .ok t (.Init t) 0
  | fuel + 1, s =>
    match LazyInner.force app s with
    | some (s', c) =>
      match derefLoop app fuel s' with
      | .ok t s'' c' => .ok t s'' (c + c')
      | r => r
    | none => .panicked

/-- The `loop` of `<UnsyncLazy as DerefMut>::deref_mut`; its body is
syntactically identical to the `Deref` loop (only the mutability of the
returned reference differs, which the model does not distinguish here —
mutation through the returned reference is modelled in `runOp`). -/
def derefMutLoop (app : F → T) : Nat → LazyInner T F → DerefResult T F
  | 0, _ => .fuelOut
  | _ + 1, .Init t => .ok t (.Init t) 0
  | fuel + 1, s =>
    match LazyInner.force app s with
    | some (s', c) =>
      match derefMutLoop app fuel s' with
      | .ok t s'' c' => .ok t s'' (c + c')
      | r => r
    | none => .panicked

/-- `<LazyInner as Debug>::fmt`: renders the current state.  `reprT` models
`T`'s `Debug` implementation; the `Uninit` and `Empty` arms write the literal
markers via `Display::fmt`.  Note the Rust impl has no `F: FnOnce` bound, so
it cannot invoke the producer. -/
def LazyInner.fmt (reprT : T → String) : LazyInner T F → String
  | .Init t => reprT t
  | .Uninit _ => "<uninitialized>"
  | .Empty => "<empty>"

/-- `<UnsyncLazy as From<F>>::from`: wraps `LazyInner::Uninit(f)` in a fresh
cell.  Returns the initial cell state paired with the number of producer
invocations performed during construction (the source body contains no call
to `f`, so this count is `0`). -/
def UnsyncLazy.fromF (f : F) : LazyInner T F × Nat :=
  (LazyInner.Uninit f, 0)

/-- `<UnsyncLazy as Debug>::fmt`: delegates to the inner state's `fmt`.
Returns the rendered string, the cell state afterwards (unchanged — the
source only reads through the `UnsafeCell` pointer) and the number of
producer invocations (`0`: neither `Debug` impl can call the producer). -/
def UnsyncLazy.fmt (reprT : T → String) (s : LazyInner T F) :
    String × LazyInner T F × Nat :=
  (s.fmt reprT, s, 0)

/-- A public operation on a cell, as seen by an external client:
`read` is `Deref::deref`; `readMut m` is `DerefMut::deref_mut` followed by
the caller mutating the returned exclusive reference with `m` (use `m = id`
for a plain `read_mut`); `debug` is `Debug::fmt`. -/
inductive LazyOp (T : Type) : Type where
  | read
  | readMut (m : T → T)
  | debug

/-- Whether an operation accesses the value (i.e. goes through
`deref`/`deref_mut` and can force initialization). -/
def LazyOp.isAccess : LazyOp T → Bool
  | .debug => false
  | _ => true

/-- Number of `read`/`read_mut` accesses in a sequence of operations. -/
def countAccesses : List (LazyOp T) → Nat
  | [] => 0
  | op :: ops => (if op.isAccess then 1 else 0) + countAccesses ops

/-- Result of running operations against a cell: the final cell state and
the total number of producer invocations, or the panic / fuel-exhaustion
outcomes propagated from the deref loops. -/
inductive RunResult (T F : Type) : Type where
  | ok (s : LazyInner T F) (calls : Nat)
  | panicked
  | fuelOut
  deriving DecidableEq

/-- Run one public operation against the cell state.  The deref loops are
run with fuel `2`, which is proved below (`derefLoop_fuel_indep` etc.) to
give the same result as any larger fuel from every non-`Empty` state.  A
`readMut m` leaves `Init (m t)` in the cell: the caller mutated the
returned exclusive reference in place. -/
def runOp (app : F → T) : LazyOp T → LazyInner T F → RunResult T F
  | .read, s =>
    match derefLoop app 2 s with
    | .ok _ s' c => .ok s' c
    | .panicked => .panicked
    | .fuelOut => .fuelOut
  | .readMut m, s =>
    match derefMutLoop app 2 s with
    | .ok t _ c => .ok (.Init (m t)) c
    | .panicked => .panicked
    | .fuelOut => .fuelOut
  | .debug, s => .ok s 0

/-- Run a sequence of public operations, accumulating producer-invocation
counts. -/
def runOps (app : F → T) : List (LazyOp T) → LazyInner T F → RunResult T F
  | [], s => .ok s 0
  | op :: ops, s =>
    match runOp app op s with
    | .ok s' c =>
      match runOps app ops s' with
      | .ok s'' c' => .ok s'' (c + c')
      | r => r
    | r => r

/-- Observe `n` consecutive `read` (`Deref::deref`) calls: the list of
values the returned references point at, the final cell state, and the
total number of producer invocations. -/
def observeReads (app : F → T) : Nat → LazyInner T F → Option (List T × LazyInner T F × Nat)
  | 0, s => some ([], s, 0)
  | n + 1, s =>
    match derefLoop app 2 s with
    | .ok t s' c =>
      match observeReads app n s' with
      | some (ts, s'', c') => some (t :: ts, s'', c + c')
      | none => none
    | _ => none

section Equations

variable {T F : Type} (app : F → T)

@[simp] theorem force_uninit (f : F) :
    LazyInner.force app (.Uninit f) = some (.Init (app f), 1) := rfl

@[simp] theorem force_init (v : T) :
    LazyInner.force app (.Init v) = some (.Init v, 0) := rfl

@[simp] theorem force_empty :
    LazyInner.force app (.Empty : LazyInner T F) = none := rfl

@[simp] theorem derefLoop_zero (s : LazyInner T F) :
    derefLoop app 0 s = .fuelOut := rfl

@[simp] theorem derefLoop_init (fuel : Nat) (v : T) :
    derefLoop app (fuel + 1) (.Init v : LazyInner T F) = .ok v (.Init v) 0 := rfl

@[simp] theorem derefLoop_uninit (fuel : Nat) (f : F) :
    derefLoop app (fuel + 2) (.Uninit f) = .ok (app f) (.Init (app f)) 1 := rfl

@[simp] theorem derefLoop_uninit_one (f : F) :
    derefLoop app 1 (.Uninit f) = .fuelOut := rfl

@[simp] theorem derefLoop_empty (fuel : Nat) :
    derefLoop app (fuel + 1) (.Empty : LazyInner T F) = .panicked := rfl

theorem derefMutLoop_eq_derefLoop (fuel : Nat) :
    ∀ s : LazyInner T F, derefMutLoop app fuel s = derefLoop app fuel s := by
  induction fuel with
  | zero => intro s; rfl
  | succ n ih =>
    intro s
    cases s with
    | Init t => rfl
    | Uninit f =>
      simp only [derefMutLoop, derefLoop, LazyInner.force]
      rw [ih]
    | Empty => rfl

@[simp] theorem runOp_read_init (v : T) :
    runOp app .read (.Init v : LazyInner T F) = .ok (.Init v) 0 := rfl

@[simp] theorem runOp_read_uninit (f : F) :
    runOp app .read (.Uninit f) = .ok (.Init (app f)) 1 := rfl

@[simp] theorem runOp_readMut_init (m : T → T) (v : T) :
    runOp app (.readMut m) (.Init v : LazyInner T F) = .ok (.Init (m v)) 0 := rfl

@[simp] theorem runOp_readMut_uninit (m : T → T) (f : F) :
    runOp app (.readMut m) (.Uninit f) = .ok (.Init (m (app f))) 1 := rfl

@[simp] theorem runOp_debug (s : LazyInner T F) :
    runOp app .debug s = .ok s 0 := rfl

@[simp] theorem runOps_nil (s : LazyInner T F) :
    runOps app [] s = .ok s 0 := rfl

theorem runOps_cons_of_ok (op : LazyOp T) (ops : List (LazyOp T))
    (s s' : LazyInner T F) (c : Nat) (h : runOp app op s = .ok s' c) :
    runOps app (op :: ops) s =
      match runOps app ops s' with
      | .ok s'' c' => .ok s'' (c + c')
      | r => r := by
  simp only [runOps, h]
  cases runOps app ops s' <;> rfl

@[simp] theorem observeReads_zero (s : LazyInner T F) :
    observeReads app 0 s = some ([], s, 0) := rfl

@[simp] theorem derefLoop_two_init (v : T) :
    derefLoop app 2 (.Init v : LazyInner T F) = .ok v (.Init v) 0 := rfl

@[simp] theorem derefLoop_two_uninit (f : F) :
    derefLoop app 2 (.Uninit f) = .ok (app f) (.Init (app f)) 1 := rfl

@[simp] theorem derefLoop_two_empty :
    derefLoop app 2 (.Empty : LazyInner T F) = .panicked := rfl

end Equations

section Helpers

variable {T F : Type} (app : F → T)

/-- Any single operation applied to an `Init` state succeeds, leaves some
`Init` state, and never invokes the producer. -/
theorem runOp_init (op : LazyOp T) (v : T) :
    ∃ w : T, runOp app op (.Init v) = .ok (.Init w) 0 := by
  cases op with
  | read => exact ⟨v, rfl⟩
  | readMut m => exact ⟨m v, rfl⟩
  | debug => exact ⟨v, rfl⟩

/-- Any sequence of operations applied to an `Init` state succeeds, stays
`Init`, and never invokes the producer. -/
theorem runOps_init (ops : List (LazyOp T)) :
    ∀ v : T, ∃ w : T, runOps app ops (.Init v) = .ok (.Init w) 0 := by
  induction ops with
  | nil => exact fun v => ⟨v, rfl⟩
  | cons op rest ih =>
    intro v
    obtain ⟨w, hw⟩ := runOp_init app op v
    obtain ⟨u, hu⟩ := ih w
    refine ⟨u, ?_⟩
    rw [runOps_cons_of_ok app op rest _ _ _ hw, hu]

/-- A sequence with no `read`/`read_mut` access leaves a fresh cell
untouched: still `Uninit f`, producer never invoked. -/
theorem runOps_uninit_no_access (ops : List (LazyOp T)) :
    ∀ f : F, countAccesses ops = 0 → runOps app ops (.Uninit f) = .ok (.Uninit f) 0 := by
  induction ops with
  | nil => intro f _; rfl
  | cons op rest ih =>
    intro f h
    cases op with
    | read => simp [countAccesses, LazyOp.isAccess] at h
    | readMut m => simp [countAccesses, LazyOp.isAccess] at h
    | debug =>
      have h' : countAccesses rest = 0 := by
        simpa [countAccesses, LazyOp.isAccess] using h
      rw [runOps_cons_of_ok app _ rest _ _ _ (runOp_debug app _), ih f h']

/-- A sequence with at least one `read`/`read_mut` access drives a fresh
cell to an `Init` state with exactly one producer invocation. -/
theorem runOps_uninit_access (ops : List (LazyOp T)) :
    ∀ f : F, 0 < countAccesses ops →
      ∃ w : T, runOps app ops (.Uninit f) = .ok (.Init w) 1 := by
  induction ops with
  | nil => intro f h; simp [countAccesses] at h
  | cons op rest ih =>
    intro f h
    cases op with
    | read =>
      obtain ⟨w, hw⟩ := runOps_init app rest (app f)
      refine ⟨w, ?_⟩
      rw [runOps_cons_of_ok app _ rest _ _ _ (runOp_read_uninit app f), hw]
    | readMut m =>
      obtain ⟨w, hw⟩ := runOps_init app rest (m (app f))
      refine ⟨w, ?_⟩
      rw [runOps_cons_of_ok app _ rest _ _ _ (runOp_readMut_uninit app m f), hw]
    | debug =>
      have h' : 0 < countAccesses rest := by
        simpa [countAccesses, LazyOp.isAccess] using h
      obtain ⟨w, hw⟩ := ih f h'
      refine ⟨w, ?_⟩
      rw [runOps_cons_of_ok app _ rest _ _ _ (runOp_debug app _), hw]

/-- Reading `n` times from an `Init v` state observes `v` every time, never
invokes the producer, and leaves the state unchanged. -/
theorem observeReads_init (n : Nat) :
    ∀ v : T, observeReads app n (.Init v) = some (List.replicate n v, .Init v, 0) := by
  induction n with
  | zero => intro v; rfl
  | succ k ih =>
    intro v
    simp only [observeReads, derefLoop_two_init, ih]
    rfl

/-- Reading `n + 1` times from a fresh `Uninit f` cell observes the
producer's value every time, with exactly one producer invocation. -/
theorem observeReads_uninit (n : Nat) (f : F) :
    observeReads app (n + 1) (.Uninit f) =
      some (List.replicate (n + 1) (app f), .Init (app f), 1) := by
  simp only [observeReads, derefLoop_two_uninit, observeReads_init]
  rfl

end Helpers

section Claims

variable {T F : Type}

/-- Claim C1: for every cell and every finite sequence of public operations
starting from a fresh cell (`read`/`read_mut` accesses, with `debug`
formatting also permitted as a non-access), the producer is invoked exactly
zero times if no access is made and exactly once otherwise; in particular it
is never invoked twice over the cell's lifetime. -/
theorem producer_invoked_at_most_once (app : F → T) (f : F) (ops : List (LazyOp T)) :
    ∃ s : LazyInner T F,
      runOps app ops (.Uninit f) = .ok s (if countAccesses ops = 0 then 0 else 1) := by
  by_cases h : countAccesses ops = 0
  · exact ⟨.Uninit f, by rw [if_pos h]; exact runOps_uninit_no_access app ops f h⟩
  · obtain ⟨w, hw⟩ := runOps_uninit_access app ops f (Nat.pos_of_ne_zero h)
    exact ⟨.Init w, by rw [if_neg h]; exact hw⟩

/-- Claim C2: every `read` on a fresh cell returns the value the producer
returned and leaves the cell in `Init` holding that value; across any
positive number of reads the observed value is always that same value
(with exactly one producer invocation in total), and the identical value is
also observed through exclusive access (`deref_mut`) on an `Init` cell. -/
theorem read_returns_producer_value (app : F → T) (f : F) (n : Nat) (h : 0 < n) :
    observeReads app n (.Uninit f) =
      some (List.replicate n (app f), .Init (app f), 1) ∧
    ∀ v : T, derefLoop app 2 (.Init v : LazyInner T F) = .ok v (.Init v) 0 ∧
      derefMutLoop app 2 (.Init v : LazyInner T F) = .ok v (.Init v) 0 := by
  constructor
  · cases n with
    | zero => exact absurd h (by simp)
    | succ k => exact observeReads_uninit app k f
  · intro v
    exact ⟨derefLoop_two_init app v, by
      rw [derefMutLoop_eq_derefLoop]
      exact derefLoop_two_init app v⟩

/-- Witness for C2 at a concrete cell: three reads on a fresh cell whose
producer returns `42` all observe `42`, with one producer invocation. -/
theorem read_returns_producer_value_witness :
    0 < 3 ∧
    observeReads (fun _ : Unit => (42 : Nat)) 3 (.Uninit ()) =
      some (List.replicate 3 42, .Init 42, 1) :=
  ⟨by decide, (read_returns_producer_value (fun _ : Unit => (42 : Nat)) () 3 (by decide)).1⟩

/-- Claim C3: after any sequence of public operations on a fresh cell (every
externally observable point is the boundary after such a sequence, each
prefix included by quantifying over all sequences), the cell state is
`Uninit` or `Init`, never `Empty`; `Empty` is held only transiently inside a
single execution of `force`, as its `during` state. -/
theorem observable_states_never_empty (app : F → T) (f : F) (ops : List (LazyOp T)) :
    (∃ (s : LazyInner T F) (c : Nat),
        runOps app ops (.Uninit f) = .ok s c ∧
        ((∃ g, s = .Uninit g) ∨ (∃ v, s = .Init v))) ∧
    ∀ s : LazyInner T F, (LazyInner.forceExec app s).during = .Empty := by
  constructor
  · by_cases h : countAccesses ops = 0
    · exact ⟨.Uninit f, 0, runOps_uninit_no_access app ops f h, Or.inl ⟨f, rfl⟩⟩
    · obtain ⟨w, hw⟩ := runOps_uninit_access app ops f (Nat.pos_of_ne_zero h)
      exact ⟨.Init w, 1, hw, Or.inr ⟨w, rfl⟩⟩
  · intro s; cases s <;> rfl

/-- Claim C4: construction via `from(f)` returns a cell in state `Uninit f`
and performs no work (zero producer invocations), and debug formatting —
any number of times — leaves the state unchanged and never invokes the
producer. -/
theorem construction_and_debug_do_no_work (app : F → T) (f : F) (n : Nat)
    (reprT : T → String) :
    UnsyncLazy.fromF f = ((.Uninit f : LazyInner T F), 0) ∧
    UnsyncLazy.fmt reprT (.Uninit f : LazyInner T F) = ("<uninitialized>", .Uninit f, 0) ∧
    runOps app (List.replicate n .debug) (.Uninit f) = .ok (.Uninit f) 0 := by
  refine ⟨rfl, rfl, runOps_uninit_no_access app _ f ?_⟩
  induction n with
  | zero => rfl
  | succ k ih => simpa [countAccesses, LazyOp.isAccess, List.replicate] using ih

/-- Claim C5: if an execution of `force` observes the state `Empty` (the
producer re-entered the cell), it hits the `unreachable!` assertion — the
panic outcome — and the deref loops propagate that panic; they never return
a reference (`isOk` is `false` for every fuel). -/
theorem reentrant_force_panics (app : F → T) (fuel : Nat) :
    LazyInner.force app (.Empty : LazyInner T F) = none ∧
    (LazyInner.forceExec app (.Empty : LazyInner T F)).result = none ∧
    derefLoop app (fuel + 1) (.Empty : LazyInner T F) = .panicked ∧
    derefMutLoop app (fuel + 1) (.Empty : LazyInner T F) = .panicked ∧
    (derefLoop app fuel (.Empty : LazyInner T F)).isOk = false := by
  refine ⟨rfl, rfl, rfl, rfl, ?_⟩
  cases fuel with
  | zero => rfl
  | succ k => rfl

/-- Claim C6 counterexample: calling `force` on a state that is already
`Init` still swaps the state out for `Empty` — `mem::replace(self, Empty)`
runs unconditionally before the variant is inspected — refuting "only when
the state is Uninit(f) does it swap the state out for Empty" (and `force`
does not return before performing the swap and write-back).  Concretely, on
`Init 5` the transient `during` state is `Empty`, even though `Init 5` is
not an `Uninit` state; the net result is still `Init 5` with zero producer
calls. -/
theorem force_swaps_empty_even_when_init :
    LazyInner.forceExec (fun _ : Unit => (0 : Nat)) (.Init 5) =
      ⟨.Empty, some (.Init 5), 0⟩ ∧
    (LazyInner.Init 5 : LazyInner Nat Unit) ≠ .Uninit () := by
  decide

/-- Claim C6 (amended): in `force`, the state is unconditionally swapped out
for `Empty` by `mem::replace`; if the swapped-out variant was `Init(v)`, it
is written back unchanged, so the net state is unchanged and the producer is
not invoked; only when the swapped-out variant was `Uninit(f)` is `f()`
invoked and `Init(f())` written back. -/
theorem force_net_effect (app : F → T) (v : T) (f : F) :
    LazyInner.forceExec app (.Init v) = ⟨.Empty, some (.Init v), 0⟩ ∧
    LazyInner.force app (.Init v) = some (.Init v, 0) ∧
    LazyInner.forceExec app (.Uninit f) = ⟨.Empty, some (.Init (app f)), 1⟩ ∧
    LazyInner.force app (.Uninit f) = some (.Init (app f), 1) :=
  ⟨rfl, rfl, rfl, rfl⟩

/-- Claim C7: debug formatting renders exactly the current state without
changing it — `reprT v` for `Init v`, the `<uninitialized>` marker for
`Uninit`, `<empty>` for `Empty`; before any access a fresh cell renders the
uninitialized marker, and after any sequence of operations containing at
least one access the cell is `Init w` and renders exactly as the inner
value `w` does. -/
theorem debug_rendering_matches_state (reprT : T → String) (app : F → T) (f : F)
    (ops : List (LazyOp T)) (s : LazyInner T F) (c : Nat)
    (h : runOps app ops (.Uninit f) = .ok s c) (ha : 0 < countAccesses ops) :
    LazyInner.fmt reprT (.Uninit f) = "<uninitialized>" ∧
    (∀ v : T, LazyInner.fmt reprT (.Init v : LazyInner T F) = reprT v) ∧
    LazyInner.fmt reprT (.Empty : LazyInner T F) = "<empty>" ∧
    UnsyncLazy.fmt reprT s = (LazyInner.fmt reprT s, s, 0) ∧
    ∃ w : T, s = .Init w ∧ LazyInner.fmt reprT s = reprT w := by
  refine ⟨rfl, fun v => rfl, rfl, rfl, ?_⟩
  obtain ⟨w, hw⟩ := runOps_uninit_access app ops f ha
  have hsw := h.symm.trans hw
  injection hsw with hs hc
  subst hs
  exact ⟨w, rfl, rfl⟩

/-- Witness for C7 at a concrete cell: one `read` on a fresh cell whose
producer returns `42` satisfies the hypotheses, and the renderings match
the state. -/
theorem debug_rendering_matches_state_witness :
    runOps (fun _ : Unit => (42 : Nat)) [.read] (.Uninit ()) = .ok (.Init 42) 1 ∧
    0 < countAccesses ([.read] : List (LazyOp Nat)) ∧
    ∃ w : Nat, (.Init 42 : LazyInner Nat Unit) = .Init w ∧
      LazyInner.fmt (fun n : Nat => toString n) (.Init 42 : LazyInner Nat Unit) = toString w :=
  ⟨by decide, by decide,
    (debug_rendering_matches_state (fun n : Nat => toString n) (fun _ : Unit => (42 : Nat))
      () [.read] (.Init 42) 1 (by decide) (by decide)).2.2.2.2⟩

/-- Claim C8: after `read_mut` returns (forcing initialization if needed,
with at most one producer invocation) and the caller mutates the returned
exclusive reference with `m`, the cell holds the mutated value and every
subsequent `read` observes it, with the producer never invoked again. -/
theorem mutation_visible_to_subsequent_reads (app : F → T) (f : F) (m : T → T) (n : Nat) :
    runOp app (.readMut m) (.Uninit f) = .ok (.Init (m (app f))) 1 ∧
    (∀ v : T, runOp app (.readMut m) (.Init v : LazyInner T F) = .ok (.Init (m v)) 0) ∧
    ∀ v : T, observeReads app n (.Init v : LazyInner T F) =
      some (List.replicate n v, .Init v, 0) :=
  ⟨rfl, fun _ => rfl, fun v => observeReads_init app n v⟩

/-- Claim C9: the retry loops of `deref` and `deref_mut` terminate from any
externally observable state: from `Init` one iteration suffices (zero
producer calls), from `Uninit` exactly two iterations are needed (fuel `1`
runs out, fuel `2` succeeds) with exactly one producer call, and the result
is independent of any larger fuel bound because `force` leaves the state
`Init`. -/
theorem deref_loops_terminate (app : F → T) (f : F) (v : T) (fuel : Nat) :
    derefLoop app (fuel + 2) (.Uninit f) = .ok (app f) (.Init (app f)) 1 ∧
    derefLoop app 1 (.Uninit f) = .fuelOut ∧
    derefLoop app (fuel + 1) (.Init v : LazyInner T F) = .ok v (.Init v) 0 ∧
    derefMutLoop app (fuel + 2) (.Uninit f) = .ok (app f) (.Init (app f)) 1 ∧
    derefMutLoop app (fuel + 1) (.Init v : LazyInner T F) = .ok v (.Init v) 0 :=
  ⟨rfl, rfl, rfl, rfl, rfl⟩

/-- Claim C10: `force` is monotone and idempotent on observable states:
both `Uninit f` and `Init v` are sent to an `Init` state; applying `force`
to the result leaves it unchanged with no further producer invocation (so
two applications equal one); an `Init v` input is written back with the
identical value `v`. -/
theorem force_idempotent_monotone (app : F → T) (f : F) (v : T) :
    LazyInner.force app (.Uninit f) = some (.Init (app f), 1) ∧
    LazyInner.force app (.Init v) = some (.Init v, 0) ∧
    LazyInner.force app (.Init (app f)) = some (.Init (app f), 0) :=
  ⟨rfl, rfl, rfl⟩

end Claims

end UnsyncLazySpec
